import Mathlib

/-!
# Verification development for the ai-txt-tool repository

This file gives a shallow embedding, in Lean 4, of the parts of the
repository that the specification's claims are about, and proves (or
refutes) each claim against that embedding.

Embedded components and their sources:

* `extract_structure` — `MarkdownStructureExtractor.extract_structure` in
  `md_to_json_structure.py` (the Outline Builder).  The Python code keeps
  a stack of mutable node dictionaries; here the stack is a `List Frame`
  (top first), a popped frame is attached to the frame below it as its
  last child, and at end of input the remaining stack is collapsed down
  to the synthetic root, whose children are returned.
* `get_task_status`, `check_all_tasks_completed`, `waitLoop` /
  `wait_for_tasks_completion`, `acquire_file_lock`, `release_file_lock` —
  `task_manager.py`.  Redis is modelled as an association list with
  expiry times for the lock key, and as a key → hash map for task
  records.  Time is discrete (seconds); one iteration of the wait loop
  takes one second (the `asyncio.sleep(1)` call).  Python's
  `timedelta.seconds` is the elapsed time modulo 86400, which the model
  reproduces exactly.
* `upload_to_oss` — the publication routine of `md_to_json_structure.py`
  (the one in `pdf_to_md.py` is line-for-line the same protocol with a
  different task-type string).  The branching structure of the routine is
  embedded as a pure function of the oracle outcomes of its effectful
  calls (directory existence, lock acquisition, wait result, upload
  result / exception), returning a record of the observable facts of the
  run.
* `extract_content_from_epub` — `epub_extractor.py`, at the level of an
  already-parsed package descriptor (the claims under verification only
  concern the content-item set and the success / failure of the call).
* `extract_content_from_pdf` — `pdf_to_md.py`, tracking the filesystem
  paths the call creates and which of them remain when it returns.
  Paths are tagged by their root (the `mkdtemp` temporary directory vs
  the persistent `./data` tree), which is how the Python code itself
  distinguishes them; `shutil.rmtree(temp_dir)` removes exactly the
  temp-rooted paths.

Machine strings are Lean `String`s; heading levels and times are `Nat`.
Whitespace is the ASCII whitespace set of Python's `str.strip` / `\s`
(inputs are assumed ASCII-whitespace-delimited, as in the repository's
documents; none of the claims depend on exotic Unicode whitespace).
-/

/-! ## Outline Builder (`md_to_json_structure.py`, lines 41–101) -/

/-- A forest of outline nodes.  `node title content level children rest`
is one node (Python dict `{"title": .., "content": .., "children": ..,
"level": ..}`) followed by its right siblings `rest`; this is the list
`[n₁, n₂, …]` of node dictionaries unrolled into a single plain
inductive so that all tree functions are structurally recursive. -/
inductive MDForest : Type where
  | nil : MDForest
  | node (title content : String) (level : Nat) (children : MDForest) (rest : MDForest) :
      MDForest
deriving DecidableEq, Repr

/-- Python `\s` / `str.strip` whitespace, ASCII fragment. -/
def pyIsSpace (c : Char) : Bool :=
  c == ' ' || c == '\t' || c == '\n' || c == '\r' || c == '\x0b' || c == '\x0c'

def pyStripList (cs : List Char) : List Char :=
  ((cs.dropWhile pyIsSpace).reverse.dropWhile pyIsSpace).reverse

/-- Python `str.strip()`. -/
def pyStrip (s : String) : String :=
  String.mk (pyStripList s.toList)

/-- Python `"\n".join(…)`. -/
def joinNL : List String → String
  | [] => ""
  | [s] => s
  | s :: rest => s ++ "\n" ++ joinNL rest

/-- The heading test of the extractor: `re.match(r'^(#{1,6})\s+(.+)$', line)`,
returning `(level, title)` with `level = len(group(1))` and
`title = group(2).strip()`.  A line matches iff it starts with 1–6 `#`
characters not followed by another `#`, and the remainder starts with a
whitespace character and has length ≥ 2 (so that `\s+` and `.+` can both
match; lines contain no `'\n'`, so `.` matches every remaining
character).  After `strip()`, the title is the remainder with its
leading whitespace run removed and then stripped — also when `.+` had to
backtrack into the whitespace run, since stripping whitespace-only text
gives `""`. -/
def headingMatch (line : String) : Option (Nat × String) :=
  let cs := line.toList
  let k := (cs.takeWhile (fun c => c == '#')).length
  if 1 ≤ k ∧ k ≤ 6 then
    let rest := cs.drop k
    match rest with
    | [] => none
    | c :: _ =>
      if pyIsSpace c ∧ 2 ≤ rest.length then
        some (k, String.mk (pyStripList (rest.dropWhile pyIsSpace)))
      else none
  else none

def isHeadingLine (line : String) : Bool := (headingMatch line).isSome

/-- One entry of the extractor's node stack: a node under construction
(the `children` of deeper headings already popped onto it). -/
structure Frame where
  title : String
  content : String
  level : Nat
  children : MDForest
deriving DecidableEq, Repr

/-- Append a completed frame as the *last* node of a forest
(`node_stack[-1]["children"].append(new_node)` observed at pop time). -/
def MDForest.snoc : MDForest → Frame → MDForest
  | .nil, f => .node f.title f.content f.level f.children .nil
  | .node t c l ch rest, f => .node t c l ch (rest.snoc f)

/-- `node_stack.pop()`: the popped top is attached to the frame below it
as that frame's last child. -/
def closeTop : List Frame → List Frame
  | f :: g :: rest => { g with children := g.children.snoc f } :: rest
  | s => s

/-- `while len(node_stack) > 1 and node_stack[-1]["level"] >= level:
node_stack.pop()`, fuelled by an iteration bound (the stack length

bounds the number of pops). -/
def popSteps (level : Nat) : Nat → List Frame → List Frame
  | 0, s => s
  | fuel + 1, f :: g :: rest =>
    if level ≤ f.level then
      popSteps level fuel ({ g with children := g.children.snoc f } :: rest)
    else f :: g :: rest
  | _ + 1, s => s

def popWhile (level : Nat) (s : List Frame) : List Frame :=
  popSteps level s.length s

/-- `if current_content: node_stack[-1]["content"] = "\n".join(current_content).strip()`. -/
def flushBuf (buf : List String) : List Frame → List Frame
  | [] => []
  | f :: rest =>
    if buf = [] then f :: rest
    else { f with content := pyStrip (joinNL buf) } :: rest

/-- The body of the extractor's `for line in self.lines` loop.  State:
the node stack (top first) and the pending `current_content` buffer. -/
def stepLine (st : List Frame × List String) (line : String) : List Frame × List String :=
  match headingMatch line with
  | none => (st.1, st.2 ++ [line])
  | some (level, title) =>
    let s1 := flushBuf st.2 st.1
    let s2 := popWhile level s1
    (⟨title, "", level, .nil⟩ :: s2, [])

/-- Collapse the remaining stack down to its bottom frame, attaching each
popped frame to the frame below (in the Python code the attachment
already happened at node creation through shared mutable dictionaries;
here it is performed when a frame leaves the stack). -/
def collapseSteps : Nat → List Frame → List Frame
  | 0, s => s
  | fuel + 1, f :: g :: rest =>
    collapseSteps fuel ({ g with children := g.children.snoc f } :: rest)
  | _ + 1, s => s

def collapseAll (s : List Frame) : MDForest :=
  match collapseSteps s.length s with
  | [f] => f.children
  | _ => .nil

def rootFrame : Frame := ⟨"Root", "", 0, .nil⟩

/-- `MarkdownStructureExtractor.extract_structure` on an already-split
line list: fold the loop body over the lines starting from the synthetic
root, flush the trailing buffer, and return the root's children. -/
def extract_structure (lines : List String) : MDForest :=
  let st := lines.foldl stepLine ([rootFrame], [])
  collapseAll (flushBuf st.2 st.1)

/-- The extractor as called on a whole Markdown string
(`self.lines = markdown_content.split('\n')`). -/
def extractStructureOfContent (markdown_content : String) : MDForest :=
  extract_structure (markdown_content.splitOn "\n")

/-! ### Specification-side descriptions of the outline -/

/-- Depth-first flattening of a forest: each node as
`(title, level, content)`, node before its children, children before
right siblings. -/
def MDForest.flatten : MDForest → List (String × Nat × String)
  | .nil => []
  | .node t c l ch rest => (t, l, c) :: (ch.flatten ++ rest.flatten)

/-- For every heading line, in order: its title, level, and the run of
non-heading lines immediately following it (up to the next heading of
*any* level), newline-joined and stripped.  This is the reference
description the extractor is proved to realise. -/
def buildSpec : List String → List (String × Nat × String)
  | [] => []
  | l :: ls =>
    match headingMatch l with
    | none => buildSpec ls
    | some (lvl, t) =>
      (t, lvl, pyStrip (joinNL (ls.takeWhile (fun x => !(isHeadingLine x))))) :: buildSpec ls

/-- Modelled from the spec's words for claim C4 (`content` = "text
between this heading and the next heading of equal-or-higher level"):
for every heading line, in order, the non-heading lines up to the next
heading of level ≤ its own, newline-joined and stripped. -/
def buildSpecEqHigher : List String → List (String × Nat × String)
  | [] => []
  | l :: ls =>
    match headingMatch l with
    | none => buildSpecEqHigher ls
    | some (lvl, t) =>
      let window := ls.takeWhile (fun x =>
        match headingMatch x with
        | some (l2, _) => decide (lvl < l2)
        | none => true)
      (t, lvl, pyStrip (joinNL (window.filter (fun x => !(isHeadingLine x))))) ::
        buildSpecEqHigher ls

/-- Every top-level node of the forest has level strictly above `l`. -/
def MDForest.allAbove : MDForest → Nat → Bool
  | .nil, _ => true
  | .node _ _ l2 _ rest, l => decide (l < l2) && rest.allAbove l

/-- Structural invariant of claim C6: throughout the forest, every
node's children have level strictly greater than the node's own. -/
def MDForest.childrenDeeper : MDForest → Bool
  | .nil => true
  | .node _ _ l ch rest => ch.allAbove l && ch.childrenDeeper && rest.childrenDeeper

def MDForest.headLevelLe (f : MDForest) (l : Nat) : Bool :=
  match f with
  | .nil => true
  | .node _ _ l2 _ _ => decide (l2 ≤ l)

def MDForest.headLevelEq (f : MDForest) (l : Nat) : Bool :=
  match f with
  | .nil => true
  | .node _ _ l2 _ _ => decide (l2 = l)

/-- Throughout the forest, each sibling list is non-increasing in level. -/
def MDForest.sibsNonInc : MDForest → Bool
  | .nil => true
  | .node _ _ l ch rest => ch.sibsNonInc && rest.headLevelLe l && rest.sibsNonInc

/-- Claim C5 as stated: throughout the forest, all siblings (nodes of a
common sibling list) share one level. -/
def MDForest.sibsSameLevel : MDForest → Bool
  | .nil => true
  | .node _ _ l ch rest => ch.sibsSameLevel && rest.headLevelEq l && rest.sibsSameLevel

/-! ## Task manager (`task_manager.py`) -/

/-- `TaskManager._get_task_key`. -/
def taskKey (product_code task_type : String) : String :=
  "book-processor::" ++ product_code ++ "::" ++ task_type

/-- `TaskManager._get_file_lock_key`. -/
def fileLockKey (product_code : String) : String :=
  "book-processor::" ++ product_code ++ "::file-lock"

/-- The Redis hash store seen through `hgetall`: a key either has a hash
(field/value list) or is absent.  An absent or empty hash is what
`hgetall` returns as `{}`. -/
def TaskStore : Type := String → Option (List (String × String))

/-- Python `dict.get(field)` on a hash (fields are unique in a Redis
hash, so first match is the match). -/
def hashGet (data : List (String × String)) (field : String) : Option String :=
  (data.find? (fun e => e.1 == field)).map (fun e => e.2)

/-- `TaskManager.get_task_status`: `data if data else {"status": "not_found"}`. -/
def get_task_status (store : TaskStore) (product_code task_type : String) :
    List (String × String) :=
  match store (taskKey product_code task_type) with
  | some data => if data = [] then [("status", "not_found")] else data
  | none => [("status", "not_found")]

/-- `TaskManager.check_all_tasks_completed`: every listed task type's
status is `"success"` or `"fail"`. -/
def check_all_tasks_completed (store : TaskStore) (product_code : String)
    (task_types : List String) : Bool :=
  task_types.all (fun t =>
    let s := hashGet (get_task_status store product_code t) "status"
    s == some "success" || s == some "fail")

/-- The wait loop of `TaskManager.wait_for_tasks_completion`.  `t` is the
elapsed time in seconds (each iteration sleeps one second); the guard is
`(datetime.now() - start_time).seconds < timeout`, and Python's
`timedelta.seconds` is the elapsed time *modulo 86400* (the
seconds-within-a-day component, not `total_seconds()`).  `fuel` bounds
how many sleeps we are willing to observe: `none` means the loop is
still running after `fuel` iterations. -/
def waitLoop (completed : Nat → Bool) (timeout : Nat) : Nat → Nat → Option Bool
  | 0, t =>
    if t % 86400 < timeout then (if completed t then some true else none)
    else some false
  | fuel + 1, t =>
    if t % 86400 < timeout then
      (if completed t then some true else waitLoop completed timeout fuel (t + 1))
    else some false

/-- `TaskManager.wait_for_tasks_completion` over a (time-indexed) store
history; the default timeout in the source is 3600. -/
def wait_for_tasks_completion (store : Nat → TaskStore) (product_code : String)
    (task_types : List String) (timeout : Nat) (fuel : Nat) : Option Bool :=
  waitLoop (fun t => check_all_tasks_completed (store t) product_code task_types)
    timeout fuel 0

/-- The Redis string-key store used for the file lock: entries
`(key, value, expiry time)`. -/
def LockStore : Type := List (String × String × Nat)

/-- A key is visible iff present and not expired. -/
def lockGet (kv : LockStore) (now : Nat) (key : String) : Option String :=
  match kv.find? (fun e => e.1 == key) with
  | some (_, v, exp) => if now < exp then some v else none
  | none => none

/-- Redis `SET key value NX EX ttl`: set only if absent, with expiry;
returns whether it set. -/
def redisSetNX (kv : LockStore) (now : Nat) (key value : String) (ttl : Nat) :
    Bool × LockStore :=
  match lockGet kv now key with
  | some _ => (false, kv)
  | none => (true, (key, value, now + ttl) :: kv.filter (fun e => !(e.1 == key)))

/-- Redis `DEL key` (deleting an absent key is a no-op). -/
def redisDelete (kv : LockStore) (key : String) : LockStore :=
  kv.filter (fun e => !(e.1 == key))

/-- `TaskManager.acquire_file_lock`:
`bool(self.redis.set(key, "1", nx=True, ex=3600))`. -/
def acquire_file_lock (kv : LockStore) (now : Nat) (product_code : String) :
    Bool × LockStore :=
  redisSetNX kv now (fileLockKey product_code) "1" 3600

/-- `TaskManager.release_file_lock`: `self.redis.delete(key)`. -/
def release_file_lock (kv : LockStore) (product_code : String) : LockStore :=
  redisDelete kv (fileLockKey product_code)

/-! ## Publication routine (`upload_to_oss`, `md_to_json_structure.py`
lines 114–165; `pdf_to_md.py` lines 48–109 is the same protocol) -/

/-- Observable facts of one run of `upload_to_oss`. -/
structure UploadOutcome where
  /-- `uploader.upload_directory(product_dir)` was called. -/
  uploadStarted : Bool
  /-- this worker held the product's file lock when the upload ran
  (it holds the lock iff its own `acquire_file_lock` returned true;
  expiry could only make this `false` earlier). -/
  lockHeldAtUpload : Bool
  /-- `release_file_lock` ran before the routine returned. -/
  lockReleased : Bool
  /-- the routine's return value. -/
  result : Bool
  /-- the last task status the routine wrote. -/
  finalStatus : String
deriving DecidableEq, Repr

/-- `upload_to_oss`, as a function of the outcomes of its effectful
calls: `dirExists` = `os.path.exists(product_dir)`, `lockAcquired` =
`acquire_file_lock`, `waitOk` = `wait_for_tasks_completion`,
`uploadRaises` / `uploadOk` = behaviour of `upload_directory`.  Control
flow: missing directory → fail-return; lock failure *and* wait failure →
fail-return; otherwise the routine proceeds to the upload `try` block
(note: also when the lock was never acquired but waiting succeeded),
whose `finally` releases the lock and whose exceptions are caught by the
outer handler after the release. -/
def upload_to_oss (dirExists lockAcquired waitOk uploadRaises uploadOk : Bool) :
    UploadOutcome :=
  if !dirExists then ⟨false, false, false, false, "fail"⟩
  else if !lockAcquired && !waitOk then ⟨false, false, false, false, "fail"⟩
  else if uploadRaises then ⟨true, lockAcquired, true, false, "fail"⟩
  else ⟨true, lockAcquired, true, uploadOk, if uploadOk then "success" else "fail"⟩

/-! ## Container Document Reader (`epub_extractor.py`,
`extract_content_from_epub`, lines 247–432) -/

/-- The parsed package descriptor of an archive: metadata, spine order,
and the manifest partitioned into content items (HTML/XHTML media type)
and image items, in manifest order. -/
structure EpubPackage where
  title : String
  author : String
  /-- `idref`s of the spine, in order ([] when no spine). -/
  spine : List String
  /-- content items as `(id, href)`. -/
  contentItems : List (String × String)
  /-- image items as `(id, href)`. -/
  imageItems : List (String × String)

/-- Content hrefs in processing order: spine order when a spine is
present (ids missing from the manifest are skipped), manifest order
otherwise. -/
def contentHrefsInOrder (e : EpubPackage) : List String :=
  if e.spine ≠ [] then
    e.spine.filterMap (fun idref => (e.contentItems.find? (fun it => it.1 == idref)).map
      (fun it => it.2))
  else e.contentItems.map (fun it => it.2)

/-- `extract_content_from_epub` on a readable archive with package
descriptor `e`, with `convert` standing for `convert_html_to_markdown`
on one content href: header blocks for non-empty title/author, then the
converted content blocks in processing order, newline-joined and written
out; the call returns the output path (success, `some`) — `readable =
false` stands for the `except` path (unreadable zip or missing
container/package document), which returns `None`.  The routine has no
emptiness check on the content-item set. -/
def extract_content_from_epub (readable : Bool) (e : EpubPackage)
    (convert : String → String) : Option String :=
  if !readable then none
  else
    let header :=
      (if e.title ≠ "" then ["# " ++ e.title ++ "\n"] else []) ++
      (if e.author ≠ "" then ["**作者：" ++ e.author ++ "**\n"] else [])
    some (joinNL (header ++ (contentHrefsInOrder e).map convert))

/-! ## Paginated (PDF) extractor (`pdf_to_md.py`,
`extract_content_from_pdf`, lines 111–235) -/

/-- Root under which a filesystem path created by the call lives: the
`tempfile.mkdtemp()` directory (when `save` is false) or the persistent
`./data` tree (when `save` is true). -/
inductive FRoot : Type where
  | temp : FRoot
  | data : FRoot
deriving DecidableEq, Repr

/-- A created path: its root and the path relative to that root. -/
structure FPath where
  root : FRoot
  rel : String
deriving DecidableEq, Repr

/-- Behaviour oracle of one PDF input: whether `pdf_path.exists()`, the
document's pages as `(text, image extensions)`, and whether the
processing body raises (the outer `except` path). -/
structure PdfModel where
  pdfExists : Bool
  pages : List (String × List String)
  readFails : Bool

/-- Image files written for the pages, named
`page_<n+1>_img_<m+1><ext>` under the images directory. -/
def pdfImageFiles (root : FRoot) (pages : List (String × List String)) : List FPath :=
  (pages.enum.flatMap (fun pg =>
    pg.2.2.enum.map (fun im =>
      ⟨root, "images/page_" ++ toString (pg.1 + 1) ++ "_img_" ++ toString (im.1 + 1) ++ im.2⟩)))

/-- `extract_content_from_pdf product_code m save`: returns the
in-memory Markdown result (`none` on the early-return and exception
paths) together with the call's created paths that are still on the
filesystem when it returns.  Order of operations, as in the source: the
output directory and image directory are created *before* the
`pdf_path.exists()` check (and `mkdtemp` itself creates the temporary
directory); `shutil.rmtree(temp_dir)` — run only on the success path
with `save` false — removes every temp-rooted path. -/
def extract_content_from_pdf (product_code : String) (m : PdfModel) (save : Bool) :
    Option String × List FPath :=
  let root := if save then FRoot.data else FRoot.temp
  let dirs : List FPath :=
    (if save then [⟨.data, "pdf"⟩] else [⟨.temp, ""⟩]) ++ [⟨root, "images"⟩]
  if !m.pdfExists then (none, dirs)
  else if m.readFails then (none, dirs)
  else
    let made := dirs ++ pdfImageFiles root m.pages ++
      [⟨root, (if save then "pdf/" else "") ++ product_code ++ ".pdf.md"⟩]
    let text := joinNL (m.pages.map (fun pg => pg.1))
    if save then (some text, made)
    else (some text, made.filter (fun p => !(p.root == FRoot.temp)))

/-! ## Helper lemmas -/

theorem waitLoop_none_of_never (c : Nat → Bool) (hc : ∀ t, c t = false) :
    ∀ fuel t, waitLoop c 86400 fuel t = none := by
  intro fuel
  induction fuel with
  | zero =>
    intro t
    have h : t % 86400 < 86400 := Nat.mod_lt _ (by norm_num)
    simp [waitLoop, h, hc]
  | succ n ih =>
    intro t
    have h : t % 86400 < 86400 := Nat.mod_lt _ (by norm_num)
    simp [waitLoop, h, hc, ih]

theorem waitLoop_times_out (c : Nat → Bool) (timeout : Nat) (htm : timeout < 86400)
    (hc : ∀ t, c t = false) :
    ∀ fuel t, t ≤ timeout → timeout ≤ t + fuel → waitLoop c timeout fuel t = some false := by
  intro fuel
  induction fuel with
  | zero =>
    intro t h1 h2
    have ht : t = timeout := by omega
    subst ht
    have h : t % 86400 = t := Nat.mod_eq_of_lt htm
    simp [waitLoop, h]
  | succ n ih =>
    intro t h1 h2
    by_cases ht : t = timeout
    · subst ht
      have h : t % 86400 = t := Nat.mod_eq_of_lt htm
      simp [waitLoop, h]
    · have hlt : t < timeout := by omega
      have h : t % 86400 = t := Nat.mod_eq_of_lt (by omega)
      simp [waitLoop, h, hlt, hc]
      exact ih (t + 1) (by omega) (by omega)

theorem filter_not_temp_nil (l : List FPath) (h : ∀ p ∈ l, p.root = FRoot.temp) :
    l.filter (fun p => !(p.root == FRoot.temp)) = [] := by
  rw [List.filter_eq_nil_iff]
  intro p hp
  simp [h p hp]

theorem find?_filter_out_key (kv : LockStore) (key : String) :
    (kv.filter (fun e => !(e.1 == key))).find? (fun e => e.1 == key) = none := by
  rw [List.find?_eq_none]
  intro e he
  have := (List.mem_filter.mp he).2
  simpa using this

/-! ## Claims C1–C3, C7–C10 -/

/-- C1: the claim states that the upload of the product's output
directory happens only while the worker holds the product's file lock.
The code violates it: when `acquire_file_lock` fails but
`wait_for_tasks_completion` succeeds, `upload_to_oss` falls through to
the upload block without ever holding the lock.  This theorem evaluates
the routine on that execution (directory exists, lock acquisition
failed, wait succeeded, upload runs fine): the upload runs, and the
worker does not hold the lock while it does. -/
theorem c1_upload_runs_without_lock :
    (upload_to_oss true false true false true).uploadStarted = true ∧
    (upload_to_oss true false true false true).lockHeldAtUpload = false := by
  decide

/-- C2 counterexample: the claim states every exit path of
`upload_to_oss` releases the lock.  On the wait-timeout exit path (lock
acquisition failed, waiting timed out) the routine returns without any
release — the `finally` block is never entered. -/
theorem c2_timeout_path_skips_release :
    (upload_to_oss true false false false true).lockReleased = false := by
  decide

/-- C2 amended: every exit path of `upload_to_oss` that reaches the
upload block (where the upload of the product directory is attempted)
releases the product's file lock in a final step — on upload success,
upload failure and upload exception alike; the early-return paths
(missing product directory, wait timeout) exit without touching the
lock. -/
theorem c2_release_on_every_upload_path
    (dirExists lockAcquired waitOk uploadRaises uploadOk : Bool)
    (h : (upload_to_oss dirExists lockAcquired waitOk uploadRaises uploadOk).uploadStarted =
      true) :
    (upload_to_oss dirExists lockAcquired waitOk uploadRaises uploadOk).lockReleased = true := by
  cases dirExists <;> cases lockAcquired <;> cases waitOk <;> cases uploadRaises <;>
    cases uploadOk <;> simp_all [upload_to_oss]

theorem c2_release_on_every_upload_path_witness :
    (upload_to_oss true true true false false).uploadStarted = true ∧
    (upload_to_oss true true true false false).lockReleased = true :=
  ⟨by decide, c2_release_on_every_upload_path true true true false false (by decide)⟩

/-- C3: the claim states `wait_for_tasks_completion` returns `false`
once the timeout elapses and never blocks indefinitely, for every
timeout value.  The loop guard uses `timedelta.seconds` — the elapsed
time modulo 86400 — instead of `total_seconds()`, so with
`timeout = 86400` (or more) the guard `elapsed % 86400 < timeout` is
always true and the loop never exits while the listed task types are
non-terminal: for every observation bound `fuel`, the loop is still
running (`none`), i.e. the call blocks indefinitely. -/
theorem c3_wait_never_returns_at_86400 (fuel : Nat) :
    wait_for_tasks_completion (fun _ => (fun _ => none : TaskStore)) "100227-01"
      ["epub-to-md"] 86400 fuel = none := by
  have hc : check_all_tasks_completed (fun _ => none : TaskStore) "100227-01"
      ["epub-to-md"] = false := by decide
  unfold wait_for_tasks_completion
  exact waitLoop_none_of_never _ (fun _ => hc) fuel 0

/-- C7 counterexample: the claim states that for an archive whose
manifest has no HTML/XHTML content items, the reader reports
`NoContentFound` and the extraction does not succeed.  The code has no
such check: on a readable archive with an empty content-item set,
`extract_content_from_epub` succeeds (returns its output rather than
`None`). -/
theorem c7_empty_content_still_succeeds :
    (extract_content_from_epub true ⟨"T", "A", [], [], []⟩ (fun h => h)).isSome = true := by
  decide

/-- C7 amended: for every readable archive whose manifest contains no
HTML/XHTML content items, the extraction *succeeds*, producing a
document consisting only of the title/author header blocks; no
`NoContentFound` (or any other) error is reported to the caller. -/
theorem c7_no_content_items_extraction_succeeds (e : EpubPackage)
    (convert : String → String) (h : e.contentItems = []) :
    extract_content_from_epub true e convert =
      some (joinNL ((if e.title ≠ "" then ["# " ++ e.title ++ "\n"] else []) ++
        (if e.author ≠ "" then ["**作者：" ++ e.author ++ "**\n"] else []))) := by
  have hc : contentHrefsInOrder e = [] := by
    unfold contentHrefsInOrder
    rcases hs : e.spine with _ | ⟨a, as⟩
    · simp [h]
    · simp [h, List.filterMap_eq_nil_iff, List.find?]
  simp [extract_content_from_epub, hc]

theorem c7_no_content_items_extraction_succeeds_witness :
    (⟨"T", "A", [], [], []⟩ : EpubPackage).contentItems = [] ∧
    extract_content_from_epub true ⟨"T", "A", [], [], []⟩ (fun s => s) =
      some (joinNL ((if "T" ≠ "" then ["# " ++ "T" ++ "\n"] else []) ++
        (if "A" ≠ "" then ["**作者：" ++ "A" ++ "**\n"] else []))) :=
  ⟨rfl, c7_no_content_items_extraction_succeeds ⟨"T", "A", [], [], []⟩ (fun s => s) rfl⟩

/-- C8: lock protocol round trip.  From a state where the product's lock
key is not visible, `acquire_file_lock` returns `true`; a second
`acquire_file_lock` before release and within the 3600-second expiry
returns `false`; and after `release_file_lock`, a subsequent
`acquire_file_lock` (at any time) returns `true` again. -/
theorem c8_lock_acquire_release_roundtrip (kv : LockStore) (code : String)
    (t0 t1 t2 : Nat) (h0 : lockGet kv t0 (fileLockKey code) = none)
    (_h1 : t0 ≤ t1) (h2 : t1 < t0 + 3600) :
    (acquire_file_lock kv t0 code).1 = true ∧
    (acquire_file_lock ((acquire_file_lock kv t0 code).2) t1 code).1 = false ∧
    (acquire_file_lock
      (release_file_lock ((acquire_file_lock kv t0 code).2) code) t2 code).1 = true := by
  have hkv1 : acquire_file_lock kv t0 code =
      (true, (fileLockKey code, "1", t0 + 3600) ::
        kv.filter (fun e => !(e.1 == fileLockKey code))) := by
    unfold acquire_file_lock redisSetNX
    rw [h0]
  refine ⟨by rw [hkv1], ?_, ?_⟩
  · rw [hkv1]
    simp [acquire_file_lock, redisSetNX, lockGet, List.find?_cons, h2]
  · rw [hkv1]
    simp only [acquire_file_lock, release_file_lock, redisDelete, redisSetNX, lockGet,
      find?_filter_out_key]

theorem c8_lock_acquire_release_roundtrip_witness :
    lockGet [] 0 (fileLockKey "100227-01") = none ∧
    (acquire_file_lock [] 0 "100227-01").1 = true ∧
    (acquire_file_lock ((acquire_file_lock [] 0 "100227-01").2) 10 "100227-01").1 = false ∧
    (acquire_file_lock
      (release_file_lock ((acquire_file_lock [] 0 "100227-01").2) "100227-01") 20
      "100227-01").1 = true := by
  refine ⟨rfl, ?_⟩
  exact c8_lock_acquire_release_roundtrip [] "100227-01" 0 10 20 rfl (by decide) (by decide)

/-- C9 counterexample: the claim states that a `save=false` call leaves
no files behind whether it returns a result or fails.  But
`extract_content_from_pdf` creates the temporary directory (and its
images subdirectory) *before* checking that the input file exists, and
the failure paths return without `shutil.rmtree`: on a missing input
with `save=false`, created paths remain. -/
theorem c9_failed_call_leaves_residue :
    (extract_content_from_pdf "100227-01" ⟨false, [], false⟩ false).2 ≠ [] := by
  decide

/-- C9 amended: for every `save=false` call that returns a result (the
success path), no files or directories created by the call remain: all
of its artifacts live under the `mkdtemp` temporary directory, which the
call removes before returning.  On the failure paths (missing input
file, extraction exception) the temporary directory and its images
subdirectory remain. -/
theorem c9_successful_call_leaves_no_residue (code : String) (m : PdfModel)
    (h : (extract_content_from_pdf code m false).1.isSome = true) :
    (extract_content_from_pdf code m false).2 = [] := by
  rcases m with ⟨pdfExists, pages, readFails⟩
  cases pdfExists with
  | false => simp [extract_content_from_pdf] at h
  | true =>
    cases readFails with
    | true => simp [extract_content_from_pdf] at h
    | false =>
      show List.filter (fun p : FPath => !(p.root == FRoot.temp)) _ = []
      refine filter_not_temp_nil _ ?_
      intro p hp
      simp only [List.mem_append, List.mem_cons, List.not_mem_nil, or_false,
        Bool.not_true, Bool.false_eq_true, if_false] at hp
      rcases hp with ((rfl | rfl) | hp) | rfl
      · rfl
      · rfl
      · simp only [pdfImageFiles, List.mem_flatMap, List.mem_map] at hp
        obtain ⟨pg, _, im, _, rfl⟩ := hp
        rfl
      · rfl

theorem c9_successful_call_leaves_no_residue_witness :
    (extract_content_from_pdf "100227-01" ⟨true, [("hello", [])], false⟩ false).1.isSome =
      true ∧
    (extract_content_from_pdf "100227-01" ⟨true, [("hello", [])], false⟩ false).2 = [] :=
  ⟨by decide,
    c9_successful_call_leaves_no_residue "100227-01" ⟨true, [("hello", [])], false⟩
      (by decide)⟩

/-- C10: a listed task type that has never had a status written reads as
`{"status": "not_found"}` through `get_task_status`, which
`check_all_tasks_completed` treats as non-terminal, so
`wait_for_tasks_completion` over such a task type polls until the
timeout and returns `false` (shown here for timeouts below the 86400-
second wrap-around of the loop guard, e.g. the default 3600) — the
absent record is never treated as complete. -/
theorem c10_absent_record_is_nonterminal (store : Nat → TaskStore) (code tt : String)
    (types : List String) (timeout : Nat) (hmem : tt ∈ types)
    (habs : ∀ t, store t (taskKey code tt) = none) (htm : timeout < 86400) :
    (∀ t, hashGet (get_task_status (store t) code tt) "status" = some "not_found") ∧
    (∀ t, check_all_tasks_completed (store t) code types = false) ∧
    wait_for_tasks_completion store code types timeout timeout = some false := by
  have hstat : ∀ t, hashGet (get_task_status (store t) code tt) "status" =
      some "not_found" := by
    intro t
    simp [get_task_status, habs t, hashGet, List.find?]
  have hchk : ∀ t, check_all_tasks_completed (store t) code types = false := by
    intro t
    cases hall : check_all_tasks_completed (store t) code types with
    | false => rfl
    | true =>
      exfalso
      have := List.all_eq_true.mp hall tt hmem
      rw [hstat t] at this
      simp at this
  refine ⟨hstat, hchk, ?_⟩
  unfold wait_for_tasks_completion
  exact waitLoop_times_out _ timeout htm hchk timeout 0 (by omega) (by omega)

theorem c10_absent_record_is_nonterminal_witness :
    ("epub-to-md" ∈ ["epub-to-md"]) ∧ (5 < 86400) ∧
    wait_for_tasks_completion (fun _ => (fun _ => none : TaskStore)) "100227-01"
      ["epub-to-md"] 5 5 = some false :=
  ⟨by decide, by decide,
    (c10_absent_record_is_nonterminal (fun _ => (fun _ => none : TaskStore)) "100227-01"
      "epub-to-md" ["epub-to-md"] 5 (by decide) (fun _ => rfl) (by decide)).2.2⟩

/-! ## Flatten correspondence for the Outline Builder (claim C4) -/

/-- The `(title, level, content)` entry a frame will contribute. -/
def frameEntry (f : Frame) : String × Nat × String := (f.title, f.level, f.content)

/-- What a frame contributes to the depth-first flattening once closed:
its own entry followed by its subtree. -/
def flattenFrame (f : Frame) : List (String × Nat × String) :=
  frameEntry f :: f.children.flatten

/-- Depth-first flattening of the forest a stack will collapse to. -/
def collapseFlat (s : List Frame) : List (String × Nat × String) :=
  (collapseAll s).flatten

def takeNonHeading (ls : List String) : List String :=
  ls.takeWhile (fun x => !(isHeadingLine x))

/-- `extract_structure` re-expressed with explicit start state (used to
generalize the induction over the line list). -/
def runAll (S : List Frame) (B : List String) (ls : List String) : MDForest :=
  collapseAll (flushBuf (ls.foldl stepLine (S, B)).2 (ls.foldl stepLine (S, B)).1)

theorem flatten_snoc (m : MDForest) (f : Frame) :
    (m.snoc f).flatten = m.flatten ++ flattenFrame f := by
  induction m with
  | nil => simp [MDForest.snoc, MDForest.flatten, flattenFrame, frameEntry]
  | node t c l ch rest ihch ihrest =>
    simp [MDForest.snoc, MDForest.flatten, ihrest]

theorem collapseFlat_close (f g : Frame) (rest : List Frame) :
    collapseFlat (f :: g :: rest) =
      collapseFlat ({ g with children := g.children.snoc f } :: rest) := rfl

theorem flattenFrame_snoc_child (g : Frame) (f : Frame) :
    flattenFrame { g with children := g.children.snoc f } =
      flattenFrame g ++ flattenFrame f := by
  simp [flattenFrame, frameEntry, flatten_snoc]

theorem collapseFlat_cons (S : List Frame) (hS : S ≠ []) :
    ∀ f : Frame, collapseFlat (f :: S) = collapseFlat S ++ flattenFrame f := by
  induction S with
  | nil => exact absurd rfl hS
  | cons g rest IH =>
    intro f
    cases rest with
    | nil =>
      show ((g.children.snoc f).flatten) = g.children.flatten ++ flattenFrame f
      exact flatten_snoc g.children f
    | cons a as =>
      calc collapseFlat (f :: g :: a :: as)
          = collapseFlat ({ g with children := g.children.snoc f } :: a :: as) :=
            collapseFlat_close f g (a :: as)
        _ = collapseFlat (a :: as) ++ flattenFrame { g with children := g.children.snoc f } :=
            IH (by simp) _
        _ = collapseFlat (a :: as) ++ (flattenFrame g ++ flattenFrame f) := by
            rw [flattenFrame_snoc_child]
        _ = (collapseFlat (a :: as) ++ flattenFrame g) ++ flattenFrame f := by
            rw [List.append_assoc]
        _ = collapseFlat (g :: a :: as) ++ flattenFrame f := by
            rw [IH (by simp) g]

theorem collapseFlat_popSteps (L : Nat) :
    ∀ (n : Nat) (S : List Frame), collapseFlat (popSteps L n S) = collapseFlat S := by
  intro n
  induction n with
  | zero => intro S; rfl
  | succ m ih =>
    intro S
    match S with
    | [] => rfl
    | [f] => rfl
    | f :: g :: rest =>
      by_cases h : L ≤ f.level
      · rw [show popSteps L (m + 1) (f :: g :: rest) =
            popSteps L m ({ g with children := g.children.snoc f } :: rest) by
            simp [popSteps, h]]
        rw [ih, ← collapseFlat_close]
      · rw [show popSteps L (m + 1) (f :: g :: rest) = f :: g :: rest by
            simp [popSteps, h]]

theorem popSteps_ne_nil (L : Nat) :
    ∀ (n : Nat) (S : List Frame), S ≠ [] → popSteps L n S ≠ [] := by
  intro n
  induction n with
  | zero => intro S hS; exact hS
  | succ m ih =>
    intro S hS
    match S with
    | [f] => exact hS
    | f :: g :: rest =>
      by_cases h : L ≤ f.level
      · rw [show popSteps L (m + 1) (f :: g :: rest) =
            popSteps L m ({ g with children := g.children.snoc f } :: rest) by
            simp [popSteps, h]]
        exact ih _ (by simp)
      · rw [show popSteps L (m + 1) (f :: g :: rest) = f :: g :: rest by
            simp [popSteps, h]]
        simp

theorem flushBuf_ne_nil (B : List String) (S : List Frame) (hS : S ≠ []) :
    flushBuf B S ≠ [] := by
  match S with
  | [] => exact absurd rfl hS
  | f :: rest =>
    by_cases h : B = []
    · simp [flushBuf, h]
    · simp [flushBuf, h]

theorem pyStrip_empty : pyStrip "" = "" := rfl

theorem takeNonHeading_cons_of_heading {l : String} {lvl : Nat} {t : String}
    (h : headingMatch l = some (lvl, t)) (ls : List String) :
    takeNonHeading (l :: ls) = [] := by
  simp [takeNonHeading, List.takeWhile, isHeadingLine, h]

theorem takeNonHeading_cons_of_text {l : String} (h : headingMatch l = none)
    (ls : List String) : takeNonHeading (l :: ls) = l :: takeNonHeading ls := by
  simp [takeNonHeading, List.takeWhile, isHeadingLine, h]

theorem collapseFlat_popWhile (L : Nat) (S : List Frame) :
    collapseFlat (popWhile L S) = collapseFlat S :=
  collapseFlat_popSteps L S.length S

theorem popWhile_ne_nil (L : Nat) (S : List Frame) (h : S ≠ []) : popWhile L S ≠ [] :=
  popSteps_ne_nil L S.length S h

theorem runAll_cons_heading {l : String} {lvl : Nat} {t : String}
    (h : headingMatch l = some (lvl, t)) (S : List Frame) (B : List String)
    (ls : List String) :
    runAll S B (l :: ls) =
      runAll (⟨t, "", lvl, .nil⟩ :: popWhile lvl (flushBuf B S)) [] ls := by
  unfold runAll
  rw [List.foldl_cons,
    show stepLine (S, B) l = (⟨t, "", lvl, .nil⟩ :: popWhile lvl (flushBuf B S), []) by
      simp [stepLine, h]]

theorem runAll_cons_text {l : String} (h : headingMatch l = none) (S : List Frame)
    (B : List String) (ls : List String) :
    runAll S B (l :: ls) = runAll S (B ++ [l]) ls := by
  unfold runAll
  rw [List.foldl_cons, show stepLine (S, B) l = (S, B ++ [l]) by simp [stepLine, h]]

/-- Main correspondence: running the extractor loop from any non-empty
stack `S` with pending buffer `B` produces, after flattening, the
already-committed part of the outline (with the upcoming non-heading run
flushed into the current top node) followed by one `(title, level,
content)` entry per remaining heading line, whose content is exactly the
newline-joined, stripped run of non-heading lines directly after that
heading. -/
theorem runAll_flatten (ls : List String) :
    ∀ (S : List Frame) (B : List String), S ≠ [] →
      (runAll S B ls).flatten =
        collapseFlat (flushBuf (B ++ takeNonHeading ls) S) ++ buildSpec ls := by
  induction ls with
  | nil =>
    intro S B hS
    simp [runAll, takeNonHeading, buildSpec, collapseFlat]
  | cons l ls IH =>
    intro S B hS
    cases hm : headingMatch l with
    | none =>
      rw [runAll_cons_text hm S B ls]
      rw [IH S (B ++ [l]) hS]
      rw [takeNonHeading_cons_of_text hm]
      rw [show buildSpec (l :: ls) = buildSpec ls by simp [buildSpec, hm]]
      simp [List.append_assoc]
    | some p =>
      obtain ⟨lvl, t⟩ := p
      have hne : flushBuf B S ≠ [] := flushBuf_ne_nil B S hS
      have hS2 : popWhile lvl (flushBuf B S) ≠ [] := popWhile_ne_nil lvl _ hne
      rw [runAll_cons_heading hm S B ls]
      rw [IH _ [] (by simp)]
      have hfresh : flushBuf ([] ++ takeNonHeading ls)
          ((⟨t, "", lvl, .nil⟩ : Frame) :: popWhile lvl (flushBuf B S)) =
          (⟨t, pyStrip (joinNL (takeNonHeading ls)), lvl, .nil⟩ : Frame) ::
            popWhile lvl (flushBuf B S) := by
        by_cases hT : takeNonHeading ls = []
        · rw [List.nil_append, hT]
          rfl
        · simp [flushBuf, hT]
      rw [hfresh]
      rw [collapseFlat_cons _ hS2]
      rw [collapseFlat_popWhile]
      rw [takeNonHeading_cons_of_heading hm]
      rw [show buildSpec (l :: ls) =
          (t, lvl, pyStrip (joinNL (takeNonHeading ls))) :: buildSpec ls by
        simp [buildSpec, hm, takeNonHeading]]
      simp [flattenFrame, frameEntry, MDForest.flatten, List.append_assoc]

theorem collapseFlat_flush_root (B : List String) :
    collapseFlat (flushBuf B [rootFrame]) = [] := by
  by_cases hB : B = []
  · simp [flushBuf, hB, collapseFlat, collapseAll, collapseSteps, rootFrame,
      MDForest.flatten]
  · simp [flushBuf, hB, collapseFlat, collapseAll, collapseSteps, rootFrame,
      MDForest.flatten]

/-- The extractor's depth-first flattening is exactly `buildSpec`: one
node per heading line, in heading order, carrying that heading's level,
stripped title, and the stripped newline-join of the non-heading lines
directly following it (up to the next heading of any level). -/
theorem extract_flatten_eq_buildSpec (lines : List String) :
    (extract_structure lines).flatten = buildSpec lines := by
  have he : extract_structure lines = runAll [rootFrame] [] lines := rfl
  rw [he, runAll_flatten lines [rootFrame] [] (by simp), collapseFlat_flush_root]
  simp

/-- C4 counterexample: the claim says each node's content is the text
between the node's heading and the next heading of *equal-or-higher*
level.  On `["# A", "x", "## B", "y"]` the code gives node `A` the
content `"x"` only — the text up to the next heading of *any* level —
whereas the claim's reading (`buildSpecEqHigher`, whose window for `A`
runs to the end of the input, i.e. `"x\ny"`) disagrees. -/
theorem c4_content_window_counterexample :
    (extract_structure ["# A", "x", "## B", "y"]).flatten ≠
      buildSpecEqHigher ["# A", "x", "## B", "y"] := by
  decide

/-- C4 amended: for every node in the tree returned by
`extract_structure`, the node's `content` equals the text between the
node's heading and the next heading of *any* level (not equal-or-higher
level), joined by newline and trimmed — stated as: the depth-first
flattening of the result is exactly the per-heading
`(title, level, content-run)` list `buildSpec`, which assigns each
heading the stripped newline-join of the non-heading lines directly
after it. -/
theorem c4_content_is_run_to_next_heading (lines : List String) :
    (extract_structure lines).flatten = buildSpec lines :=
  extract_flatten_eq_buildSpec lines

/-! ## Structural invariants of the Outline Builder (claims C5, C6) -/

/-- Level of the *last* top-level node of a forest is at least `k`
(trivially true for the empty forest). -/
def MDForest.lastLevelGe : MDForest → Nat → Bool
  | .nil, _ => true
  | .node _ _ l _ .nil, k => decide (k ≤ l)
  | .node _ _ _ _ (.node t2 c2 l2 ch2 r2), k =>
    (MDForest.node t2 c2 l2 ch2 r2).lastLevelGe k

/-- A frame whose accumulated children satisfy both structural
invariants and sit strictly below it. -/
def goodFrame (f : Frame) : Prop :=
  f.children.sibsNonInc = true ∧ f.children.childrenDeeper = true ∧
    f.children.allAbove f.level = true

/-- Invariant of the extractor's stack (top first): every frame is good,
levels strictly decrease going down the stack is violated nowhere
(each frame sits strictly above the one below it), and each non-top
frame's last child — the most recently closed subtree — has level at
least that of the frame directly above it. -/
def stackOk : List Frame → Prop
  | [] => True
  | [g] => goodFrame g
  | f :: g :: rest =>
    goodFrame f ∧ g.level < f.level ∧ g.children.lastLevelGe f.level = true ∧
      stackOk (g :: rest)

/-- The bottom frame of the stack is the synthetic level-0 root. -/
def lastLevel0 : List Frame → Prop
  | [] => True
  | [g] => g.level = 0
  | _ :: rest => lastLevel0 rest

def topChildren : List Frame → MDForest
  | [] => .nil
  | f :: _ => f.children

theorem sibsNonInc_snoc (m : MDForest) (f : Frame) :
    m.sibsNonInc = true → f.children.sibsNonInc = true →
    m.lastLevelGe f.level = true → (m.snoc f).sibsNonInc = true := by
  induction m with
  | nil =>
    intro _ hf _
    simp [MDForest.snoc, MDForest.sibsNonInc, MDForest.headLevelLe, hf]
  | node t c l ch rest ihch ihrest =>
    intro hm hf hlast
    cases rest with
    | nil =>
      have hch : ch.sibsNonInc = true := by
        simp only [MDForest.sibsNonInc, Bool.and_eq_true] at hm
        exact hm.1.1
      have hle : f.level ≤ l := by
        simpa [MDForest.lastLevelGe] using hlast
      simp [MDForest.snoc, MDForest.sibsNonInc, MDForest.headLevelLe, hch, hf, hle]
    | node t2 c2 l2 ch2 r2 =>
      simp only [MDForest.sibsNonInc, Bool.and_eq_true] at hm
      have hrest2 : (MDForest.node t2 c2 l2 ch2 r2).sibsNonInc = true := by
        simp only [MDForest.sibsNonInc, Bool.and_eq_true]
        exact hm.2
      have H := ihrest hrest2 hf hlast
      simp only [MDForest.snoc] at H ⊢
      simp only [MDForest.sibsNonInc, Bool.and_eq_true] at H ⊢
      refine ⟨⟨hm.1.1, ?_⟩, H⟩
      simpa [MDForest.headLevelLe] using hm.1.2

theorem childrenDeeper_snoc (m : MDForest) (f : Frame) :
    m.childrenDeeper = true → f.children.childrenDeeper = true →
    f.children.allAbove f.level = true → (m.snoc f).childrenDeeper = true := by
  induction m with
  | nil =>
    intro _ hf ha
    simp [MDForest.snoc, MDForest.childrenDeeper, hf, ha]
  | node t c l ch rest ihch ihrest =>
    intro hm hf ha
    simp only [MDForest.snoc, MDForest.childrenDeeper, Bool.and_eq_true] at hm ⊢
    exact ⟨hm.1, ihrest hm.2 hf ha⟩

theorem allAbove_snoc (m : MDForest) (f : Frame) (k : Nat) :
    m.allAbove k = true → k < f.level → (m.snoc f).allAbove k = true := by
  induction m with
  | nil =>
    intro _ hk
    simp [MDForest.snoc, MDForest.allAbove, hk]
  | node t c l ch rest ihch ihrest =>
    intro hm hk
    simp only [MDForest.snoc, MDForest.allAbove, Bool.and_eq_true] at hm ⊢
    exact ⟨hm.1, ihrest hm.2 hk⟩

theorem lastLevelGe_snoc (m : MDForest) (f : Frame) (k : Nat) :
    k ≤ f.level → (m.snoc f).lastLevelGe k = true := by
  induction m with
  | nil =>
    intro hk
    simp [MDForest.snoc, MDForest.lastLevelGe, hk]
  | node t c l ch rest ihch ihrest =>
    intro hk
    cases rest with
    | nil => simp [MDForest.snoc, MDForest.lastLevelGe, hk]
    | node t2 c2 l2 ch2 r2 =>
      have := ihrest hk
      simpa [MDForest.snoc, MDForest.lastLevelGe] using this

theorem stackOk_head_good {g : Frame} {rest : List Frame} (h : stackOk (g :: rest)) :
    goodFrame g := by
  cases rest with
  | nil => exact h
  | cons a as => exact h.1

theorem stackOk_close (f g : Frame) (rest : List Frame) (h : stackOk (f :: g :: rest)) :
    stackOk ({ g with children := g.children.snoc f } :: rest) := by
  obtain ⟨hgf, hlt, hlast, htail⟩ := h
  have hgg : goodFrame g := stackOk_head_good htail
  have hgood : goodFrame { g with children := g.children.snoc f } := by
    refine ⟨?_, ?_, ?_⟩
    · exact sibsNonInc_snoc g.children f hgg.1 hgf.1 hlast
    · exact childrenDeeper_snoc g.children f hgg.2.1 hgf.2.1 hgf.2.2
    · exact allAbove_snoc g.children f g.level hgg.2.2 hlt
  cases rest with
  | nil => exact hgood
  | cons a as => exact ⟨hgood, htail.2.1, htail.2.2.1, htail.2.2.2⟩

theorem popSteps_ok (L : Nat) :
    ∀ (n : Nat) (f : Frame) (rest : List Frame),
      stackOk (f :: rest) → f.children.lastLevelGe L = true →
      ∃ f' rest', popSteps L n (f :: rest) = f' :: rest' ∧ stackOk (f' :: rest') ∧
        f'.children.lastLevelGe L = true ∧
        (rest.length ≤ n → rest' = [] ∨ f'.level < L) := by
  intro n
  induction n with
  | zero =>
    intro f rest h hlast
    refine ⟨f, rest, rfl, h, hlast, fun hlen => Or.inl ?_⟩
    exact List.eq_nil_of_length_eq_zero (Nat.le_zero.mp hlen)
  | succ m ih =>
    intro f rest h hlast
    cases rest with
    | nil => exact ⟨f, [], rfl, h, hlast, fun _ => Or.inl rfl⟩
    | cons g rest' =>
      by_cases hL : L ≤ f.level
      · have hstep : popSteps L (m + 1) (f :: g :: rest') =
            popSteps L m ({ g with children := g.children.snoc f } :: rest') := by
          simp [popSteps, hL]
        have hok : stackOk ({ g with children := g.children.snoc f } :: rest') :=
          stackOk_close f g rest' h
        have hlast2 : ({ g with children := g.children.snoc f }).children.lastLevelGe L =
            true := lastLevelGe_snoc g.children f L hL
        obtain ⟨f', rest'', he, hok', hl', hterm⟩ := ih _ _ hok hlast2
        refine ⟨f', rest'', hstep ▸ he, hok', hl', fun hlen => hterm ?_⟩
        simp only [List.length_cons] at hlen
        omega
      · refine ⟨f, g :: rest', by simp [popSteps, hL], h, hlast, fun _ => Or.inr ?_⟩
        omega

theorem flushBuf_shape (B : List String) (f : Frame) (rest : List Frame) :
    ∃ c, flushBuf B (f :: rest) = { f with content := c } :: rest := by
  by_cases hB : B = []
  · exact ⟨f.content, by simp [flushBuf, hB]⟩
  · exact ⟨pyStrip (joinNL B), by simp [flushBuf, hB]⟩

theorem stackOk_flush (B : List String) (S : List Frame) (h : stackOk S) :
    stackOk (flushBuf B S) := by
  cases S with
  | nil => simpa [flushBuf]
  | cons f rest =>
    obtain ⟨c, hc⟩ := flushBuf_shape B f rest
    rw [hc]
    cases rest with
    | nil => exact h
    | cons g rest' => exact ⟨h.1, h.2.1, h.2.2.1, h.2.2.2⟩

theorem lastLevel0_flush (B : List String) (S : List Frame) (h : lastLevel0 S) :
    lastLevel0 (flushBuf B S) := by
  cases S with
  | nil => simpa [flushBuf]
  | cons f rest =>
    obtain ⟨c, hc⟩ := flushBuf_shape B f rest
    rw [hc]
    cases rest with
    | nil => exact h
    | cons g rest' => exact h

theorem topChildren_flush (B : List String) (S : List Frame) :
    topChildren (flushBuf B S) = topChildren S := by
  cases S with
  | nil => rfl
  | cons f rest =>
    obtain ⟨c, hc⟩ := flushBuf_shape B f rest
    rw [hc]
    rfl

theorem lastLevel0_popSteps (L : Nat) :
    ∀ (n : Nat) (S : List Frame), lastLevel0 S → lastLevel0 (popSteps L n S) := by
  intro n
  induction n with
  | zero => intro S h; exact h
  | succ m ih =>
    intro S h
    match S with
    | [] => exact h
    | [f] => exact h
    | f :: g :: rest =>
      by_cases hL : L ≤ f.level
      · rw [show popSteps L (m + 1) (f :: g :: rest) =
            popSteps L m ({ g with children := g.children.snoc f } :: rest) by
            simp [popSteps, hL]]
        apply ih
        cases rest with
        | nil => exact h
        | cons a as => exact h
      · rw [show popSteps L (m + 1) (f :: g :: rest) = f :: g :: rest by
            simp [popSteps, hL]]
        exact h

theorem headingMatch_level_bounds {line : String} {lvl : Nat} {t : String}
    (h : headingMatch line = some (lvl, t)) : 1 ≤ lvl ∧ lvl ≤ 6 := by
  simp only [headingMatch] at h
  split at h
  · rename_i hk
    split at h
    · exact absurd h (by simp)
    · split at h
      · simp only [Option.some.injEq, Prod.mk.injEq] at h
        obtain ⟨h1, -⟩ := h
        subst h1
        exact hk
      · exact absurd h (by simp)
  · exact absurd h (by simp)

theorem goodFrame_fresh (t : String) (lvl : Nat) :
    goodFrame (⟨t, "", lvl, .nil⟩ : Frame) := ⟨rfl, rfl, rfl⟩

/-- Pushing a fresh heading frame after the flush-and-pop of a heading
event preserves the stack invariants. -/
theorem stackOk_push (S : List Frame) (B : List String) (lvl : Nat) (t : String)
    (h1 : S ≠ []) (h2 : stackOk S) (h3 : lastLevel0 S)
    (h4 : topChildren S = MDForest.nil) (hlvl : 1 ≤ lvl) :
    stackOk ((⟨t, "", lvl, .nil⟩ : Frame) :: popWhile lvl (flushBuf B S)) ∧
      lastLevel0 ((⟨t, "", lvl, .nil⟩ : Frame) :: popWhile lvl (flushBuf B S)) := by
  have hXne : flushBuf B S ≠ [] := flushBuf_ne_nil B S h1
  have hXok : stackOk (flushBuf B S) := stackOk_flush B S h2
  have hX0 : lastLevel0 (flushBuf B S) := lastLevel0_flush B S h3
  have hXtop : topChildren (flushBuf B S) = MDForest.nil := by
    rw [topChildren_flush]; exact h4
  rcases hX : flushBuf B S with _ | ⟨f0, rest0⟩
  · exact absurd hX hXne
  · rw [hX] at hXok hX0 hXtop
    have hlge : f0.children.lastLevelGe lvl = true := by
      have : f0.children = MDForest.nil := hXtop
      rw [this]
      rfl
    obtain ⟨f', rest', heq, hok', hl', hterm⟩ :=
      popSteps_ok lvl (f0 :: rest0).length f0 rest0 hXok hlge
    have heq2 : popWhile lvl (f0 :: rest0) = f' :: rest' := heq
    have h0' : lastLevel0 (f' :: rest') := by
      rw [← heq]
      exact lastLevel0_popSteps lvl _ _ hX0
    have hlevlt : f'.level < lvl := by
      rcases hterm (by simp [List.length_cons]) with hnil | hlt
      · subst hnil
        have : f'.level = 0 := h0'
        omega
      · exact hlt
    rw [heq2]
    constructor
    · cases rest' with
      | nil => exact ⟨goodFrame_fresh t lvl, hlevlt, hl', hok'⟩
      | cons a as => exact ⟨goodFrame_fresh t lvl, hlevlt, hl', hok'⟩
    · cases rest' with
      | nil => exact h0'
      | cons a as => exact h0'

/-- The loop of the extractor preserves the stack invariants. -/
theorem foldl_invar (lines : List String) :
    ∀ (S : List Frame) (B : List String), S ≠ [] → stackOk S → lastLevel0 S →
      topChildren S = MDForest.nil →
      ((lines.foldl stepLine (S, B)).1 ≠ [] ∧
        stackOk (lines.foldl stepLine (S, B)).1 ∧
        lastLevel0 (lines.foldl stepLine (S, B)).1 ∧
        topChildren (lines.foldl stepLine (S, B)).1 = MDForest.nil) := by
  induction lines with
  | nil => intro S B hh1 hh2 hh3 hh4; exact ⟨hh1, hh2, hh3, hh4⟩
  | cons l ls IH =>
    intro S B hh1 hh2 hh3 hh4
    rw [List.foldl_cons]
    cases hm : headingMatch l with
    | none =>
      rw [show stepLine (S, B) l = (S, B ++ [l]) by simp [stepLine, hm]]
      exact IH S (B ++ [l]) hh1 hh2 hh3 hh4
    | some p =>
      obtain ⟨lvl, t⟩ := p
      rw [show stepLine (S, B) l =
          ((⟨t, "", lvl, .nil⟩ : Frame) :: popWhile lvl (flushBuf B S), []) by
        simp [stepLine, hm]]
      have hlvl : 1 ≤ lvl := (headingMatch_level_bounds hm).1
      obtain ⟨hok, h0⟩ := stackOk_push S B lvl t hh1 hh2 hh3 hh4 hlvl
      exact IH _ [] (by simp) hok h0 rfl

theorem collapseSteps_good :
    ∀ (n : Nat) (S : List Frame), S ≠ [] → S.length ≤ n + 1 → stackOk S →
      ∃ f, collapseSteps n S = [f] ∧ goodFrame f := by
  intro n
  induction n with
  | zero =>
    intro S hne hlen hok
    cases S with
    | nil => exact absurd rfl hne
    | cons f rest =>
      cases rest with
      | nil => exact ⟨f, rfl, hok⟩
      | cons g r => simp at hlen
  | succ m ih =>
    intro S hne hlen hok
    cases S with
    | nil => exact absurd rfl hne
    | cons f rest =>
      cases rest with
      | nil => exact ⟨f, rfl, hok⟩
      | cons g r =>
        have hstep : collapseSteps (m + 1) (f :: g :: r) =
            collapseSteps m ({ g with children := g.children.snoc f } :: r) := rfl
        rw [hstep]
        refine ih _ (by simp) ?_ (stackOk_close f g r hok)
        simp only [List.length_cons] at hlen ⊢
        omega

theorem collapseAll_good (S : List Frame) (hne : S ≠ []) (hok : stackOk S) :
    ∃ f, collapseAll S = f.children ∧ goodFrame f := by
  obtain ⟨f, hf, hg⟩ := collapseSteps_good S.length S hne (by omega) hok
  refine ⟨f, ?_, hg⟩
  unfold collapseAll
  rw [hf]

theorem stackOk_root : stackOk [rootFrame] := ⟨rfl, rfl, rfl⟩

/-- The two structural invariants of every forest the extractor emits:
each sibling list is non-increasing in level, and every node's children
sit strictly below it. -/
theorem extract_structure_good (lines : List String) :
    (extract_structure lines).sibsNonInc = true ∧
      (extract_structure lines).childrenDeeper = true := by
  obtain ⟨hne, hok, h0, htop⟩ :=
    foldl_invar lines [rootFrame] [] (by simp) stackOk_root rfl rfl
  have hok2 : stackOk (flushBuf (lines.foldl stepLine ([rootFrame], [])).2
      (lines.foldl stepLine ([rootFrame], [])).1) := stackOk_flush _ _ hok
  have hne2 : flushBuf (lines.foldl stepLine ([rootFrame], [])).2
      (lines.foldl stepLine ([rootFrame], [])).1 ≠ [] := flushBuf_ne_nil _ _ hne
  obtain ⟨f, hf, hg⟩ := collapseAll_good _ hne2 hok2
  have hres : extract_structure lines = f.children := hf
  rw [hres]
  exact ⟨hg.1, hg.2.1⟩

/-- C5 counterexample: the claim says siblings always share the same
level.  On `["## A", "# B"]` the level-2 heading is popped when the
level-1 heading arrives, and both end up as children of the synthetic
root: the resulting top-level sibling list has levels `[2, 1]`. -/
theorem c5_siblings_share_level_counterexample :
    (extract_structure ["## A", "# B"]).sibsSameLevel = false := by
  decide

/-- C5 amended: in every tree produced by the Outline Builder, each
sibling list (children of one common parent, the top-level list
included) is *non-increasing* in level — equal levels in the common
case, but a later sibling may have a strictly smaller level when the
heading sequence jumps back above an unclosed level. -/
theorem c5_sibling_levels_nonincreasing (lines : List String) :
    (extract_structure lines).sibsNonInc = true :=
  (extract_structure_good lines).1

/-- C6: for every flat heading sequence given as input, every node in
the forest returned by the Outline Builder has children whose level is
strictly greater than the node's own level. -/
theorem c6_children_strictly_deeper (lines : List String) :
    (extract_structure lines).childrenDeeper = true :=
  (extract_structure_good lines).2
